import Mathlib

/-!
Verification of the `synced-cron` scheduler core against its source.

All time arithmetic is modelled in UTC mode: a `Time` is the number of
milliseconds since the Unix epoch (`1970-01-01T00:00:00Z`), mirroring the
JavaScript `Date` millisecond clock, and the `getUTC*` accessors are defined
from the proleptic Gregorian calendar exactly as the `Date` getters behave
for non-negative timestamps.
-/

namespace SyncedCron

/-- A timestamp is a plain `Nat`: milliseconds since the Unix epoch, UTC. -/

def msPerSecond : Nat := 1000
def msPerMinute : Nat := 60000
def msPerHour : Nat := 3600000
def msPerDay : Nat := 86400000

/-- Gregorian leap-year rule (as implemented by JavaScript `Date`). -/
def isLeap (y : Nat) : Bool :=
  (y % 4 == 0 && y % 100 != 0) || y % 400 == 0

def daysInYear (y : Nat) : Nat := if isLeap y then 366 else 365

/-- Number of days of month `m` (1-based) in year `y`. -/
def daysInMonth (y m : Nat) : Nat :=
  if m = 2 then (if isLeap y then 29 else 28)
  else if m = 4 ∨ m = 6 ∨ m = 9 ∨ m = 11 then 30
  else 31

/-- Peel whole years off a day count, starting at year `y`.
Returns the year reached and the remaining day-of-year (0-based).
The fuel is always chosen large enough that it never runs out. -/
def splitYear : Nat → Nat → Nat → Nat × Nat
  | 0, y, d => (y, d)
  | fuel + 1, y, d =>
    if d < daysInYear y then (y, d) else splitYear fuel (y + 1) (d - daysInYear y)

/-- Peel whole months (1-based, within year `y`) off a day-of-year count.
Returns the month reached and the remaining day-of-month (0-based). -/
def splitMonth : Nat → Nat → Nat → Nat → Nat × Nat
  | 0, _, m, d => (m, d)
  | fuel + 1, y, m, d =>
    if d < daysInMonth y m then (m, d) else splitMonth fuel y (m + 1) (d - daysInMonth y m)

/-- Civil date `(year, month, day)` (month and day 1-based) of a day index
counted from 1970-01-01. -/
def civilOfDay (d : Nat) : Nat × Nat × Nat :=
  let p := splitYear (d + 1) 1970 d
  let q := splitMonth 12 p.1 1 p.2
  (p.1, q.1, q.2 + 1)

def getUTCMinutes (t : Nat) : Nat := t / msPerMinute % 60
def getUTCHours (t : Nat) : Nat := t / msPerHour % 24
def getUTCSeconds (t : Nat) : Nat := t / msPerSecond % 60
def getUTCMilliseconds (t : Nat) : Nat := t % msPerSecond
/-- Day of month, 1-based (JS `getUTCDate`). -/
def getUTCDate (t : Nat) : Nat := (civilOfDay (t / msPerDay)).2.2
/-- Month, 1-based (JS `getUTCMonth() + 1` as used by the cron matcher). -/
def getUTCMonth1 (t : Nat) : Nat := (civilOfDay (t / msPerDay)).2.1
def getUTCFullYear (t : Nat) : Nat := (civilOfDay (t / msPerDay)).1
/-- Day of week, 0 = Sunday (JS `getUTCDay`); 1970-01-01 was a Thursday. -/
def getUTCDay (t : Nat) : Nat := (t / msPerDay + 4) % 7

/-- Days from the epoch to Jan 1 of the year `1970 + n`. -/
def daysOfYears : Nat → Nat
  | 0 => 0
  | n + 1 => daysOfYears n + daysInYear (1970 + n)

/-- Days from Jan 1 of year `y` to the first day of month `m` (1-based). -/
def daysBeforeMonth (y m : Nat) : Nat :=
  ((List.range (m - 1)).map (fun i => daysInMonth y (i + 1))).sum

/-- Build a UTC timestamp from a civil date and time of day. -/
def timeOf (y m d h mi : Nat) : Nat :=
  (daysOfYears (y - 1970) + daysBeforeMonth y m + (d - 1)) * msPerDay
    + h * msPerHour + mi * msPerMinute

/-! ### Character-code string utilities

The parser of `cronParser.ts` works on JavaScript strings. We model strings
as lists of character codes (`List Nat`), obtained from Lean string literals
via `codesOf`, and mirror the JavaScript string operations the source uses
(`trim`, `split`, `toUpperCase`, `includes`, `indexOf`, `Number.parseInt`). -/

def codesOf (s : String) : List Nat := s.data.map Char.toNat

def upCode (c : Nat) : Nat := if 97 ≤ c ∧ c ≤ 122 then c - 32 else c

def isDigitCode (c : Nat) : Bool := 48 ≤ c && c ≤ 57

def isSpaceCode (c : Nat) : Bool :=
  c == 32 || c == 9 || c == 10 || c == 13 || c == 11 || c == 12

def trimCodes (l : List Nat) : List Nat :=
  ((l.dropWhile isSpaceCode).reverse.dropWhile isSpaceCode).reverse

/-- Split on runs of whitespace, dropping empty segments (JS `split(/\s+/)`
on a trimmed string). -/
def splitWsAux : List Nat → List Nat → List (List Nat)
  | [], acc => if acc.isEmpty then [] else [acc.reverse]
  | c :: cs, acc =>
    if isSpaceCode c then
      if acc.isEmpty then splitWsAux cs [] else acc.reverse :: splitWsAux cs []
    else splitWsAux cs (c :: acc)

def splitWs (l : List Nat) : List (List Nat) := splitWsAux l []

/-- Split on a separator, keeping empty segments (JS `split(",")`, `split("/")`). -/
def splitSepAux (sep : Nat) : List Nat → List Nat → List (List Nat)
  | [], acc => [acc.reverse]
  | c :: cs, acc =>
    if c == sep then acc.reverse :: splitSepAux sep cs []
    else splitSepAux sep cs (c :: acc)

def splitSep (sep : Nat) (l : List Nat) : List (List Nat) := splitSepAux sep l []

/-- JS `Number.parseInt(s, 10)` restricted to the non-negative outcomes the
source can reach: skip leading whitespace, allow a `+` sign, read the longest
digit prefix; `none` models `NaN`. (A leading `-` yields `none`; the source
treats the resulting negative/NaN value as an error in both cases.) -/
def jsParseIntNat (l : List Nat) : Option Nat :=
  let l₁ := l.dropWhile isSpaceCode
  let l₂ := match l₁ with
            | c :: rest => if c == 43 then rest else c :: rest
            | [] => []
  let ds := l₂.takeWhile isDigitCode
  if ds.isEmpty then none
  else some (ds.foldl (fun a c => a * 10 + (c - 48)) 0)

/-! ### Cron parser (`cronParser.ts`) -/

structure CronFields where
  minute : List Nat
  hour : List Nat
  dayOfMonth : List Nat
  month : List Nat
  dayOfWeek : List Nat
  isLastDayOfMonth : Bool
  deriving DecidableEq, Repr

def MONTH_NAMES : List (List Nat × Nat) :=
  [(codesOf "JAN", 1), (codesOf "FEB", 2), (codesOf "MAR", 3), (codesOf "APR", 4),
   (codesOf "MAY", 5), (codesOf "JUN", 6), (codesOf "JUL", 7), (codesOf "AUG", 8),
   (codesOf "SEP", 9), (codesOf "OCT", 10), (codesOf "NOV", 11), (codesOf "DEC", 12)]

def WEEKDAY_NAMES : List (List Nat × Nat) :=
  [(codesOf "SUN", 0), (codesOf "MON", 1), (codesOf "TUE", 2), (codesOf "WED", 3),
   (codesOf "THU", 4), (codesOf "FRI", 5), (codesOf "SAT", 6)]

/-- `range(start, end)`: numbers from `start` to `end` inclusive (empty when
`end < start`). -/
def rangeList (a b : Nat) : List Nat := List.range' a (b + 1 - a)

def insertSorted (x : Nat) : List Nat → List Nat
  | [] => [x]
  | y :: ys => if x < y then x :: y :: ys else if x = y then y :: ys else y :: insertSorted x ys

/-- Sorted deduplication (JS `Array.from(new Set(xs)).sort((a,b) => a-b)`). -/
def sortDedup (l : List Nat) : List Nat := l.foldl (fun acc x => insertSorted x acc) []

/-- `normalizeWeekdays`: map `7 → 0`, deduplicate, sort. -/
def normalizeWeekdays (weekdays : List Nat) : List Nat :=
  sortDedup (weekdays.map (fun d => if d == 7 then 0 else d))

/-- `parseValue`: named value, else a number within `[lo, hi]`. -/
def parseValue (nameMap : List (List Nat × Nat)) (value : List Nat) (lo hi : Nat) :
    Except String Nat :=
  match nameMap.lookup value with
  | some n => .ok n
  | none =>
    if value.head? == some 45 then .error "invalid value"
    else
      match jsParseIntNat value with
      | none => .error "invalid value"
      | some n => if n < lo ∨ hi < n then .error "value out of range" else .ok n

/-- `parseRange`: `a-b` with both endpoints present and `a ≤ b`. -/
def parseRange (nameMap : List (List Nat × Nat)) (rp : List Nat) (lo hi : Nat) :
    Except String (List Nat) :=
  let di := rp.findIdx (fun c => c == 45)
  if di = 0 ∨ di = rp.length - 1 then .error "invalid range"
  else
    let startStr := rp.take di
    let endStr := rp.drop (di + 1)
    if startStr.isEmpty ∨ endStr.isEmpty then .error "invalid range"
    else do
      let a ← parseValue nameMap (trimCodes startStr) lo hi
      let b ← parseValue nameMap (trimCodes endStr) lo hi
      if b < a then .error "range start greater than end" else .ok (rangeList a b)

/-- Keep every `step`-th element by index (JS `filter((_, i) => i % step === 0)`). -/
def stepFilter (l : List Nat) (step : Nat) : List Nat :=
  (l.enum.filter (fun p => p.1 % step == 0)).map (fun p => p.2)

/-- `parseFieldPart`: a single comma-free part — step, range, or value. -/
def parseFieldPart (nameMap : List (List Nat × Nat)) (part : List Nat) (lo hi : Nat) :
    Except String (List Nat) :=
  if part.contains 47 then
    let ps := splitSep 47 part
    let rangePart := ps.headD []
    let stepPart := (ps.drop 1).headD []
    match jsParseIntNat stepPart with
    | none => .error "invalid step"
    | some step =>
      if step < 1 then .error "invalid step"
      else do
        let base ←
          if rangePart = codesOf "*" then pure (rangeList lo hi)
          else if rangePart.contains 45 then parseRange nameMap rangePart lo hi
          else do
            let s ← parseValue nameMap rangePart lo hi
            pure (rangeList s hi)
        pure (stepFilter base step)
  else if part.contains 45 then parseRange nameMap part lo hi
  else do
    let v ← parseValue nameMap part lo hi
    pure [v]

/-- `parseField`: wildcard, comma list (union, sorted, deduplicated), or a
single part; the field is uppercased first. -/
def parseField (nameMap : List (List Nat × Nat)) (field : List Nat) (lo hi : Nat) :
    Except String (List Nat) :=
  let upper := field.map upCode
  if upper = codesOf "*" then .ok (rangeList lo hi)
  else if upper.contains 44 then do
    let lists ← (splitSep 44 upper).mapM (fun p => parseFieldPart nameMap (trimCodes p) lo hi)
    pure (sortDedup lists.flatten)
  else parseFieldPart nameMap upper lo hi

/-- `parseCronExpression`: five whitespace-separated fields; day `L` sets
`isLastDayOfMonth` with an empty day set; weekday 7 normalizes to 0. -/
def parseCronExpression (expression : String) : Except String CronFields :=
  match splitWs (trimCodes (codesOf expression)) with
  | [minutePart, hourPart, dayPart, monthPart, weekdayPart] =>
    let isL := dayPart.map upCode = codesOf "L"
    do
      let minute ← parseField [] minutePart 0 59
      let hour ← parseField [] hourPart 0 23
      let dayOfMonth ← if isL then pure [] else parseField [] dayPart 1 31
      let month ← parseField MONTH_NAMES monthPart 1 12
      let dayOfWeekRaw ← parseField WEEKDAY_NAMES weekdayPart 0 7
      pure ⟨minute, hour, dayOfMonth, month, normalizeWeekdays dayOfWeekRaw, isL⟩
  | _ => .error "expected 5 fields"

/-! ### Cron matcher and next-occurrence search (`cronParser.ts`) -/

/-- `isLastDayOfMonth(date)`: tomorrow falls in a different month. -/
def isLastDayOfMonthDate (t : Nat) : Bool :=
  !(getUTCMonth1 (t + msPerDay) == getUTCMonth1 t)

/-- `matchesCronFields(date, fields, useUTC=true)`. -/
def matchesCronFields (t : Nat) (fields : CronFields) : Bool :=
  let minute := getUTCMinutes t
  let hour := getUTCHours t
  let day := getUTCDate t
  let month := getUTCMonth1 t
  let weekday := getUTCDay t
  if !(fields.minute.contains minute) then false
  else if !(fields.hour.contains hour) then false
  else if !(fields.month.contains month) then false
  else
    let dayMatches :=
      if fields.isLastDayOfMonth then isLastDayOfMonthDate t
      else fields.dayOfMonth.isEmpty || fields.dayOfMonth.contains day
    let weekdayMatches := fields.dayOfWeek.isEmpty || fields.dayOfWeek.contains weekday
    let dayIsSpecified := fields.isLastDayOfMonth ||
      (decide (0 < fields.dayOfMonth.length) && decide (fields.dayOfMonth.length < 31))
    let weekdayIsSpecified :=
      decide (0 < fields.dayOfWeek.length) && decide (fields.dayOfWeek.length < 7)
    if dayIsSpecified && weekdayIsSpecified then dayMatches || weekdayMatches
    else dayMatches && weekdayMatches

/-- Start of the minute-by-minute scan: seconds and milliseconds zeroed,
minute advanced by one. -/
def roundUpMinute (t : Nat) : Nat := t - t % msPerMinute + msPerMinute

def MAX_ITERATIONS : Nat := 4 * 365 * 24 * 60

/-- The candidate scan of `getNextCronOccurrence`, fuelled by the iteration
cap; `none` models the thrown impossible-schedule error. -/
def cronSearch (fields : CronFields) : Nat → Nat → Option Nat
  | 0, _ => none
  | fuel + 1, t =>
    if matchesCronFields t fields then some t
    else cronSearch fields fuel (t + msPerMinute)

def getNextCronOccurrence (fields : CronFields) (t : Nat) : Option Nat :=
  cronSearch fields MAX_ITERATIONS (roundUpMinute t)

example : getUTCFullYear (timeOf 2025 1 13 9 0) = 2025 := by decide
example : getUTCMonth1 (timeOf 2025 1 13 9 0) = 1 := by decide
example : getUTCDate (timeOf 2025 1 13 9 0) = 13 := by decide
example : getUTCDay (timeOf 2025 1 13 9 0) = 1 := by decide
example : getUTCHours (timeOf 2025 1 13 9 0) = 9 := by decide
example : getUTCDate (timeOf 2024 2 29 0 0) = 29 := by decide
example : getUTCMonth1 (timeOf 2024 2 29 0 0) = 2 := by decide
example : getUTCDay (timeOf 2025 1 10 10 0) = 5 := by decide

example :
    parseCronExpression "0 9 15 * MON" =
      .ok ⟨[0], [9], [15], [1, 2, 3, 4, 5, 6, 7, 8, 9, 10, 11, 12], [1], false⟩ := by
  rfl

example :
    parseCronExpression "0 9 30 2 *" =
      .ok ⟨[0], [9], [30], [2], [0, 1, 2, 3, 4, 5, 6], false⟩ := by
  rfl

example : (parseCronExpression "61 * * * *").isOk = false := by decide
example : (parseCronExpression "not a cron").isOk = false := by decide

/-! ### Interval scheduler (`intervalScheduler.ts`), UTC mode

JavaScript `Date` setters are modelled as arithmetic on the millisecond
timestamp: `setSeconds(0, 0)` zeroes the sub-minute part,
`setUTCMinutes(m)` replaces the minute-of-hour component (keeping seconds
and milliseconds, which are already zero at every use site),
`setUTCHours(h + 1)` on a normalized value adds one hour, `setUTCDate(d + n)`
adds `n` UTC days, and `Math.ceil(a / b)` on naturals is `(a + b - 1) / b`. -/

inductive TimeUnit where
  | seconds | minutes | hours | days
  deriving DecidableEq, Repr

def getIntervalMs (every : Nat) (unit : TimeUnit) : Nat :=
  match unit with
  | .seconds => every * 1000
  | .minutes => every * 60 * 1000
  | .hours => every * 60 * 60 * 1000
  | .days => every * 24 * 60 * 60 * 1000

/-- Drift mode: simply add the interval to the current time. -/
def getDriftInterval (every : Nat) (unit : TimeUnit) (t : Nat) : Nat :=
  t + getIntervalMs every unit

def jsCeil (a b : Nat) : Nat := (a + b - 1) / b

/-- `setUTCSeconds(s)`: replace the seconds component, keep milliseconds. -/
def jsSetUTCSeconds (t : Nat) (s : Nat) : Nat :=
  t - t % msPerMinute + s * msPerSecond + t % msPerSecond

/-- `setUTCMinutes(m)`: replace the minute component, keep the sub-minute part. -/
def jsSetUTCMinutes (t : Nat) (m : Nat) : Nat :=
  t - (t / msPerMinute % 60) * msPerMinute + m * msPerMinute

/-- `setUTCHours(h)` (single argument): replace the hour component. -/
def jsSetUTCHoursOnly (t : Nat) (h : Nat) : Nat :=
  t - (t / msPerHour % 24) * msPerHour + h * msPerHour

/-- `getAlignedInterval(every, unit, from, useUTC=true)`: round to the next
fixed boundary. Note that the source zeroes seconds *before* reading
`currentSec`, so in the `seconds` case the current second is always 0. -/
def getAlignedInterval (every : Nat) (unit : TimeUnit) (t : Nat) : Nat :=
  let next := t - t % msPerMinute
  match unit with
  | .seconds =>
    let currentSec := next / msPerSecond % 60
    let alignedSec := jsCeil (currentSec + 1) every * every
    jsSetUTCSeconds next alignedSec
  | .minutes =>
    let currentMin := next / msPerMinute % 60
    let alignedMin := jsCeil (currentMin + 1) every * every
    if 60 ≤ alignedMin then jsSetUTCMinutes (next + msPerHour) (alignedMin % 60)
    else jsSetUTCMinutes next alignedMin
  | .hours =>
    let next1 := jsSetUTCMinutes next 0
    let currentHour := next1 / msPerHour % 24
    let alignedHour := jsCeil (currentHour + 1) every * every
    if 24 ≤ alignedHour then jsSetUTCHoursOnly (next1 + msPerDay) (alignedHour % 24)
    else jsSetUTCHoursOnly next1 alignedHour
  | .days =>
    let next1 := t - t % msPerDay
    next1 + every * msPerDay

/-- Parse the `"H[H]:MM"` daily time (`/^(\d{1,2}):(\d{2})$/` plus range
checks); returns `(hour, minute)`. -/
def parseAtTime (at' : List Nat) : Except String (Nat × Nat) :=
  match splitSep 58 at' with
  | [hs, ms] =>
    if (1 ≤ hs.length ∧ hs.length ≤ 2) ∧ ms.length = 2 ∧
        hs.all isDigitCode ∧ ms.all isDigitCode then
      let hour := hs.foldl (fun a c => a * 10 + (c - 48)) 0
      let minute := ms.foldl (fun a c => a * 10 + (c - 48)) 0
      if 23 < hour then .error "invalid hour"
      else if 59 < minute then .error "invalid minute"
      else .ok (hour, minute)
    else .error "invalid at format"
  | _ => .error "invalid at format"

/-- `getNextDailyTime(at, from, useUTC=true)`: today at `H:MM:00.000`,
advanced one day when that is not strictly after `from`. -/
def getNextDailyTime (at' : List Nat) (t : Nat) : Except String Nat :=
  match parseAtTime at' with
  | .error e => .error e
  | .ok (hour, minute) =>
    let next := t - t % msPerDay + hour * msPerHour + minute * msPerMinute
    if next ≤ t then .ok (next + msPerDay) else .ok next

/-! ### Schedule router (`scheduler.ts`) -/

inductive Schedule where
  | interval (every : Nat) (unit : TimeUnit) (aligned : Bool)
  | cron (expr : String)
  | daily (at' : String)
  deriving DecidableEq, Repr

/-- `getNextScheduledTime(schedule, {utc: true})` evaluated at `now = t`;
thrown errors become `Except.error`. -/
def getNextScheduledTime (s : Schedule) (t : Nat) : Except String Nat :=
  match s with
  | .interval every unit aligned =>
    .ok (if aligned then getAlignedInterval every unit t else getDriftInterval every unit t)
  | .cron expr =>
    match parseCronExpression expr with
    | .error e => .error e
    | .ok fields =>
      match getNextCronOccurrence fields t with
      | some u => .ok u
      | none => .error "impossible schedule"
  | .daily at' => getNextDailyTime (codesOf at') t

/-! ### Timer engine (`timerManager.ts`): `scheduleRecurring`

The loop is modelled as a transition system. Each entry into `scheduleNext`
observes one outcome of `getNextTime(now)` — either a thrown error, a
non-`Date` value, a `NaN` date, or a date value — together with the current
clock. The state records the mutable variables of the closure plus the
observable calls made so far. -/

inductive FnOutcome where
  | thrown
  | nonDate
  | nanDate
  | date (t : Nat)

/-- The validation of step 1: anything that throws inside the `try`. -/
def isSchedulingFailure (o : FnOutcome) (now : Nat) : Bool :=
  match o with
  | .thrown => true
  | .nonDate => true
  | .nanDate => true
  | .date t => decide (t ≤ now)

def MAX_SETTIMEOUT_DELAY : Nat := 2147483647

structure RecurringState where
  done : Bool
  consecutiveFailures : Nat
  attempts : Nat
  onErrorCalls : Nat
  onCircuitBreakCalls : Nat
  onScheduleCalls : Nat
  backoffsArmed : List Nat
  deriving DecidableEq, Repr

def initialRecurringState : RecurringState := ⟨false, 0, 0, 0, 0, 0, []⟩

/-- One entry into `scheduleNext` of `scheduleRecurring`, given the observed
`getNextTime` outcome and clock. -/
def stepRecurring (maxConsecutiveFailures : Nat) (o : FnOutcome) (now : Nat)
    (s : RecurringState) : RecurringState :=
  if s.done then s
  else if isSchedulingFailure o now then
    let f := s.consecutiveFailures + 1
    if maxConsecutiveFailures ≤ f then
      { s with
        done := true
        consecutiveFailures := f
        attempts := s.attempts + 1
        onErrorCalls := s.onErrorCalls + 1
        onCircuitBreakCalls := s.onCircuitBreakCalls + 1 }
    else
      { s with
        consecutiveFailures := f
        attempts := s.attempts + 1
        onErrorCalls := s.onErrorCalls + 1
        backoffsArmed := s.backoffsArmed ++ [min (10 * 2 ^ (f - 1)) 60000] }
  else
    { s with
      consecutiveFailures := 0
      attempts := s.attempts + 1
      onScheduleCalls := s.onScheduleCalls + 1 }

/-- The loop after `n` entries into `scheduleNext`, with outcome and clock
streams. -/
def runRecurring (maxConsecutiveFailures : Nat) (outs : Nat → FnOutcome)
    (nows : Nat → Nat) : Nat → RecurringState
  | 0 => initialRecurringState
  | n + 1 =>
    stepRecurring maxConsecutiveFailures (outs n) (nows n)
      (runRecurring maxConsecutiveFailures outs nows n)

/-! ### Job-level timer (`scheduler.ts`): `scheduleJob` / `scheduleNext` -/

inductive ArmedTimer where
  | errorRetry
  | pastRetry
  | fire (delay : Nat) (capped : Bool)
  deriving DecidableEq, Repr

def armedDelay : ArmedTimer → Nat
  | .errorRetry => 5000
  | .pastRetry => 100
  | .fire d _ => d

/-- One entry into `scheduleNext` of `scheduleJob`: classify what timer gets
armed from the outcome of `getNextScheduledTime` and the clock. -/
def scheduleNextStep (res : Except String Nat) (now : Nat) : ArmedTimer :=
  match res with
  | .error _ => .errorRetry
  | .ok nextRun =>
    if nextRun ≤ now then .pastRetry
    else
      let delay := nextRun - now
      .fire (min delay MAX_SETTIMEOUT_DELAY) (decide (MAX_SETTIMEOUT_DELAY < delay))

structure ScheduleJobState where
  done : Bool
  armedLog : List ArmedTimer
  deriving DecidableEq, Repr

/-- `scheduleNext` never sets `done`; it only appends another armed timer. -/
def stepScheduleJob (res : Except String Nat) (now : Nat) (s : ScheduleJobState) :
    ScheduleJobState :=
  if s.done then s else { s with armedLog := s.armedLog ++ [scheduleNextStep res now] }

def runScheduleJob (results : Nat → Except String Nat) (nows : Nat → Nat) :
    Nat → ScheduleJobState
  | 0 => ⟨false, []⟩
  | n + 1 => stepScheduleJob (results n) (nows n) (runScheduleJob results nows n)

/-- `timer.clear()`: the only transition that sets `done`. -/
def clearScheduleJob (s : ScheduleJobState) : ScheduleJobState := { s with done := true }

/-! ### Executor (`executor.ts`)

Error messages are character-code lists. A job invocation is modelled by the
instant `dur` at which its promise settles and the settlement itself
(`Except.ok` value or `Except.error` message); the race in
`executeWithTimeoutLimit` delivers the job's settlement if it happens
strictly before the timeout fires, and the timeout rejection otherwise. -/

def codesPre : List Nat → List Nat → Bool
  | [], _ => true
  | _ :: _, [] => false
  | a :: as, b :: bs => if a = b then codesPre as bs else false

/-- JS `haystack.includes(needle)`. -/
def codesHas (needle : List Nat) : List Nat → Bool
  | [] => codesPre needle []
  | c :: cs => codesPre needle (c :: cs) || codesHas needle cs

/-- Decimal digit codes of a natural number (JS number-to-string in a
template literal). -/
def decDigitsAux : Nat → Nat → List Nat
  | 0, _ => []
  | fuel + 1, n => if n < 10 then [48 + n] else decDigitsAux fuel (n / 10) ++ [48 + n % 10]

def decCodes (n : Nat) : List Nat := decDigitsAux (n + 1) n

/-- The rejection message of the expired timeout:
`Job "${jobName}" timed out after ${timeout}ms`. -/
def timeoutMsgCodes (jobName : List Nat) (timeout : Nat) : List Nat :=
  codesOf "Job \"" ++ jobName ++ codesOf "\" timed out after " ++ decCodes timeout
    ++ codesOf "ms"

/-- `executeWithTimeoutLimit(fn, timeout, jobName)`. -/
def executeWithTimeoutLimit {α : Type} (timeout : Nat) (jobName : List Nat) (dur : Nat)
    (out : Except (List Nat) α) : Except (List Nat) α :=
  if dur < timeout then out else .error (timeoutMsgCodes jobName timeout)

structure ExecutionResult (α : Type) where
  success : Bool
  result : Option α
  errMsg : Option (List Nat)
  duration : Nat
  timedOut : Bool
  onTimeoutCalled : Bool
  deriving DecidableEq, Repr

/-- The settlement the `try` block of `executeWithTimeout` observes:
`if (timeout && timeout > 0)` race against the timeout, else the plain job
settlement. -/
def effectiveOutcome {α : Type} (jobName : List Nat) (timeout : Option Nat) (dur : Nat)
    (out : Except (List Nat) α) : Except (List Nat) α :=
  match timeout with
  | some tm => if 0 < tm then executeWithTimeoutLimit tm jobName dur out else out
  | none => out

/-- The wall-clock duration observed when the `try` block settles. -/
def elapsedDuration (timeout : Option Nat) (dur : Nat) : Nat :=
  match timeout with
  | some tm => if 0 < tm then min dur tm else dur
  | none => dur

/-- `executeWithTimeout(job, intendedAt, jobName, {timeout, onTimeout})`.
`timeout = none` models an absent option; `hasOnTimeout` records whether an
`onTimeout` callback was supplied. The catch branch classifies the error as
a timeout via `err.message.includes("timed out")`. -/
def executeWithTimeout {α : Type} (jobName : List Nat) (timeout : Option Nat)
    (hasOnTimeout : Bool) (dur : Nat) (out : Except (List Nat) α) : ExecutionResult α :=
  let elapsed := elapsedDuration timeout dur
  match effectiveOutcome jobName timeout dur out with
  | .ok v => ⟨true, some v, none, elapsed, false, false⟩
  | .error m =>
    if codesHas (codesOf "timed out") m then ⟨false, none, some m, elapsed, true, hasOnTimeout⟩
    else ⟨false, none, some m, elapsed, false, false⟩

/-! ### Coordinator (`SyncedCron.ts`): `executeJob`

One firing of a job entry. The record-store interactions are modelled by
their observed outcomes; the trace records which observable actions the
firing performed. -/

inductive InsertOutcome where
  | inserted (id : Nat)
  | dupKey
  | storeFail
  deriving DecidableEq, Repr

structure CoordTrace where
  jobInvoked : Bool
  /-- `none`: no history update; `some true`: update with `result`;
  `some false`: update with `error`. -/
  updateWritten : Option Bool
  onErrorCalled : Bool
  /-- The firing function re-threw an error (instead of returning normally). -/
  threw : Bool
  deriving DecidableEq, Repr

def executeJobBody (jobHistoryId : Option Nat) (jobSucceeds hasOnError : Bool) : CoordTrace :=
  if jobSucceeds then ⟨true, if jobHistoryId.isSome then some true else none, false, false⟩
  else ⟨true, if jobHistoryId.isSome then some false else none, hasOnError, false⟩

/-- `executeJob(entry, intendedAt)`: lease insert when `persist`, then the
body; duplicate-key (code 11000) returns after a debug log, any other insert
error re-throws. -/
def executeJob (persist : Bool) (insertRes : InsertOutcome) (jobSucceeds hasOnError : Bool) :
    CoordTrace :=
  if persist then
    match insertRes with
    | .inserted id => executeJobBody (some id) jobSucceeds hasOnError
    | .dupKey => ⟨false, none, false, false⟩
    | .storeFail => ⟨false, none, false, true⟩
  else executeJobBody none jobSucceeds hasOnError

/-! ### Job status statistics (`SyncedCron.ts`): `getJobStatus`

`recentRuns` is the store's answer to
`find({name}, {sort: {startedAt: -1}, limit: 100})` — the most recent at
most 100 rows, newest first; the statistics are computed from it. -/

structure JobHistoryRow where
  startedAt : Nat
  finishedAt : Option Nat
  error : Option (List Nat)
  deriving DecidableEq, Repr

structure JobStats where
  totalRuns : Nat
  successCount : Nat
  errorCount : Nat
  averageDuration : Option ℚ
  deriving DecidableEq, Repr

/-- The per-row duration used inside the average
(`r.finishedAt ? r.finishedAt - r.startedAt : 0`). -/
def rowDuration (r : JobHistoryRow) : ℤ :=
  match r.finishedAt with
  | some f => (f : ℤ) - (r.startedAt : ℤ)
  | none => 0

/-- The `stats` object built by `getJobStatus`. -/
def jobStatsOf (recentRuns : List JobHistoryRow) : JobStats :=
  let totalRuns := recentRuns.length
  let successCount := (recentRuns.filter (fun r => r.error.isNone)).length
  let errorCount := (recentRuns.filter (fun r => r.error.isSome)).length
  let completedRuns := recentRuns.filter (fun r => r.finishedAt.isSome)
  let averageDuration :=
    if 0 < completedRuns.length then
      some ((((completedRuns.map rowDuration).sum : ℤ) : ℚ) / (completedRuns.length : ℚ))
    else none
  ⟨totalRuns, successCount, errorCount, averageDuration⟩

/-! ### Registry (`SyncedCron.ts`): `add` and `scheduleEntry`

`add` registers the entry and, when the instance is running, calls
`scheduleEntry`, which first installs `scheduleJob`'s timer handle (whose
internal errors are caught) and then calls `getNextScheduledTime` for a log
line — a call whose exceptions propagate out of `add`. -/

inductive AddOutcome where
  | ok
  | alreadyExists
  | threw (msg : String)
  deriving DecidableEq, Repr

/-- `add(config)` followed by the synchronous part of `scheduleEntry`.
Returns the outcome seen by the caller, the entry map afterwards, and
whether a timer handle was installed for the new entry. -/
def addJob (running : Bool) (entries : List (String × Schedule)) (now : Nat)
    (name : String) (s : Schedule) : AddOutcome × List (String × Schedule) × Bool :=
  if (entries.lookup name).isSome then (.alreadyExists, entries, false)
  else
    let entries' := entries ++ [(name, s)]
    if running then
      match getNextScheduledTime s now with
      | .ok _ => (.ok, entries', true)
      | .error msg => (.threw msg, entries', true)
    else (.ok, entries', false)

/-! ## Theorems -/

/-- C1: with `persist = true`, a duplicate-key rejection (Mongo code 11000)
of the lease insert makes `executeJob` skip the firing entirely: the job body
is not invoked, no history update is written, `onError` is not called, and
the error is not propagated — the firing function returns normally. -/
theorem c1_duplicate_key_skips_firing (jobSucceeds hasOnError : Bool) :
    executeJob true .dupKey jobSucceeds hasOnError =
      { jobInvoked := false, updateWritten := none, onErrorCalled := false, threw := false } :=
  rfl

/-- C10: the registry's job timer (`scheduleJob`) never stops on its own —
`scheduleNext` arms a 5000 ms retry when computing the next run time throws,
a 100 ms retry when the computed time is not strictly in the future, and it
keeps a timer armed on every entry with no failure counter and no circuit
breaker; only `clear()` sets `done`. -/
theorem c10_scheduleJob_never_stops (results : Nat → Except String Nat) (nows : Nat → Nat) :
    (∀ n, (runScheduleJob results nows n).done = false) ∧
    (∀ n, (runScheduleJob results nows n).armedLog =
      (List.range n).map (fun k => scheduleNextStep (results k) (nows k))) ∧
    (∀ msg now, scheduleNextStep (.error msg) now = .errorRetry ∧
      armedDelay (scheduleNextStep (.error msg) now) = 5000) ∧
    (∀ u now, u ≤ now → scheduleNextStep (.ok u) now = .pastRetry ∧
      armedDelay (scheduleNextStep (.ok u) now) = 100) ∧
    (∀ s, (clearScheduleJob s).done = true) := by
  have hdone : ∀ n, (runScheduleJob results nows n).done = false := by
    intro n
    induction n with
    | zero => rfl
    | succ n ih => simp [runScheduleJob, stepScheduleJob, ih]
  refine ⟨hdone, ?_, ?_, ?_, ?_⟩
  · intro n
    induction n with
    | zero => rfl
    | succ n ih =>
      simp [runScheduleJob, stepScheduleJob, hdone n, ih, List.range_succ]
  · intro msg now
    exact ⟨rfl, rfl⟩
  · intro u now h
    constructor <;> simp [scheduleNextStep, h, armedDelay]
  · intro s
    rfl

theorem c10_witness :
    (runScheduleJob (fun _ => .error "boom") (fun _ => 0) 3).done = false ∧
    scheduleNextStep (.ok 5) 7 = .pastRetry :=
  ⟨(c10_scheduleJob_never_stops (fun _ => .error "boom") (fun _ => 0)).1 3,
   ((c10_scheduleJob_never_stops (fun _ => .error "boom") (fun _ => 0)).2.2.2.1 5 7
      (by norm_num)).1⟩

/-- The backoff delays armed after the first `k` consecutive failures. -/
def backoffList (k : Nat) : List Nat :=
  (List.range k).map (fun i => min (10 * 2 ^ i) 60000)

/-- C2: when every call of `getNextTime` fails validation, each failure
invokes `onError` and increments the consecutive-failure counter; after the
`f`-th failure with `f < maxConsecutiveFailures` a retry backoff of exactly
`min(10·2^(f-1), 60000)` ms is armed; on the `maxConsecutiveFailures`-th
failure the circuit breaker trips — `done` is set, `onCircuitBreak` fires
once — and no further scheduling ever occurs, so exactly
`maxConsecutiveFailures` attempts are made. -/
theorem c2_circuit_breaker (m : Nat) (outs : Nat → FnOutcome) (nows : Nat → Nat)
    (hm : 1 ≤ m) (hfail : ∀ k, isSchedulingFailure (outs k) (nows k) = true) :
    (∀ k, k < m → runRecurring m outs nows k = ⟨false, k, k, k, 0, 0, backoffList k⟩) ∧
    runRecurring m outs nows m = ⟨true, m, m, m, 1, 0, backoffList (m - 1)⟩ ∧
    (∀ n, m ≤ n → runRecurring m outs nows n = runRecurring m outs nows m) := by
  have key : ∀ k, k < m →
      runRecurring m outs nows k = ⟨false, k, k, k, 0, 0, backoffList k⟩ := by
    intro k
    induction k with
    | zero => intro _; rfl
    | succ k ih =>
      intro hk
      have hk' : k < m := by omega
      have hnottrip : ¬ m ≤ k + 1 := by omega
      rw [runRecurring, ih hk']
      simp [stepRecurring, hfail k, hnottrip, backoffList, List.range_succ]
  have trip : runRecurring m outs nows m = ⟨true, m, m, m, 1, 0, backoffList (m - 1)⟩ := by
    obtain ⟨m', rfl⟩ : ∃ m', m = m' + 1 := ⟨m - 1, by omega⟩
    rw [runRecurring, key m' (by omega)]
    simp [stepRecurring, hfail m']
  refine ⟨key, trip, ?_⟩
  intro n hn
  induction n with
  | zero => omega
  | succ n ih =>
    rcases Nat.lt_or_ge n m with h | h
    · have : m = n + 1 := by omega
      subst this
      rfl
    · rw [runRecurring, ih h, trip]
      simp [stepRecurring]

theorem c2_witness :
    runRecurring 3 (fun _ => .nanDate) (fun _ => 0) 3 = ⟨true, 3, 3, 3, 1, 0, [10, 20]⟩ ∧
    runRecurring 3 (fun _ => .nanDate) (fun _ => 0) 7 =
      runRecurring 3 (fun _ => .nanDate) (fun _ => 0) 3 := by
  have h := c2_circuit_breaker 3 (fun _ => .nanDate) (fun _ => 0) (by norm_num)
    (fun _ => rfl)
  exact ⟨h.2.1.trans (by decide), h.2.2 7 (by norm_num)⟩

/-! ### Calendar facts used for the impossible-schedule claim -/

theorem splitMonth_ge3 : ∀ (fuel y m d : Nat), 3 ≤ m → 3 ≤ (splitMonth fuel y m d).1 := by
  intro fuel
  induction fuel with
  | zero => intro y m d hm; simpa [splitMonth] using hm
  | succ fuel ih =>
    intro y m d hm
    rw [splitMonth]
    split
    · simpa using hm
    · exact ih y (m + 1) _ (by omega)

theorem splitMonth_feb (fuel y d : Nat) (h : (splitMonth (fuel + 1) y 2 d).1 = 2) :
    (splitMonth (fuel + 1) y 2 d).2 < daysInMonth y 2 := by
  by_cases hd : d < daysInMonth y 2
  · rw [splitMonth]
    simp [hd]
  · exfalso
    rw [splitMonth] at h
    simp [hd] at h
    have := splitMonth_ge3 fuel y 3 (d - daysInMonth y 2) (by norm_num)
    omega

theorem splitMonth_from_jan (y d : Nat) (h : (splitMonth 12 y 1 d).1 = 2) :
    (splitMonth 12 y 1 d).2 < daysInMonth y 2 := by
  by_cases hd : d < daysInMonth y 1
  · exfalso
    rw [show (12 : Nat) = 11 + 1 from rfl, splitMonth] at h
    simp [hd] at h
  · rw [show (12 : Nat) = 11 + 1 from rfl, splitMonth] at h ⊢
    simp only [hd, if_false]
    simp only [hd, if_false] at h
    exact splitMonth_feb 10 y _ h

theorem daysInMonth_feb_le (y : Nat) : daysInMonth y 2 ≤ 29 := by
  rw [daysInMonth]
  split
  · split <;> omega
  · omega

/-- In the calendar model, a timestamp whose month is February has a day of
month of at most 29. -/
theorem feb_day_le_29 (t : Nat) (h : getUTCMonth1 t = 2) : getUTCDate t ≤ 29 := by
  rw [getUTCMonth1, civilOfDay] at h
  rw [getUTCDate, civilOfDay]
  have := splitMonth_from_jan (splitYear (t / msPerDay + 1) 1970 (t / msPerDay)).1
    (splitYear (t / msPerDay + 1) 1970 (t / msPerDay)).2 h
  have := daysInMonth_feb_le (splitYear (t / msPerDay + 1) 1970 (t / msPerDay)).1
  simp only
  omega

/-- The parsed fields of `"0 9 30 2 *"` (February 30th). -/
def feb30Fields : CronFields := ⟨[0], [9], [30], [2], [0, 1, 2, 3, 4, 5, 6], false⟩

theorem feb30_never_matches (t : Nat) : matchesCronFields t feb30Fields = false := by
  by_cases h2 : getUTCMonth1 t = 2
  · have hd : getUTCDate t ≤ 29 := feb_day_le_29 t h2
    have hd' : getUTCDate t ≠ 30 := by omega
    simp [matchesCronFields, feb30Fields, hd']
  · simp [matchesCronFields, feb30Fields, h2]

/-! ### Generic facts about the candidate scan -/

theorem cronSearch_none_of_never (f : CronFields)
    (hnever : ∀ t, matchesCronFields t f = false) :
    ∀ (fuel : Nat) (s : Nat), cronSearch f fuel s = none := by
  intro fuel
  induction fuel with
  | zero => intro s; rfl
  | succ fuel ih =>
    intro s
    rw [cronSearch, hnever s]
    simpa using ih (s + msPerMinute)

theorem cronSearch_some_charac (f : CronFields) :
    ∀ (fuel : Nat) (s u : Nat), cronSearch f fuel s = some u →
      matchesCronFields u f = true ∧
      ∃ k, k < fuel ∧ u = s + k * msPerMinute ∧
        ∀ j, j < k → matchesCronFields (s + j * msPerMinute) f = false := by
  intro fuel
  induction fuel with
  | zero => intro s u h; simp [cronSearch] at h
  | succ fuel ih =>
    intro s u h
    rw [cronSearch] at h
    by_cases hm : matchesCronFields s f
    · simp [hm] at h
      subst h
      exact ⟨hm, 0, by omega, by simp, fun j hj => absurd hj (Nat.not_lt_zero j)⟩
    · simp [hm] at h
      obtain ⟨hmu, k, hk, hu, hall⟩ := ih (s + msPerMinute) u h
      refine ⟨hmu, k + 1, by omega, by rw [hu]; ring, ?_⟩
      intro j hj
      match j with
      | 0 => simpa using hm
      | j + 1 =>
        have := hall j (by omega)
        have heq : s + msPerMinute + j * msPerMinute = s + (j + 1) * msPerMinute := by ring
        rwa [heq] at this

theorem cronSearch_none_all_fail (f : CronFields) :
    ∀ (fuel : Nat) (s : Nat), cronSearch f fuel s = none →
      ∀ k, k < fuel → matchesCronFields (s + k * msPerMinute) f = false := by
  intro fuel
  induction fuel with
  | zero => intro s _ k hk; omega
  | succ fuel ih =>
    intro s h k hk
    rw [cronSearch] at h
    by_cases hm : matchesCronFields s f
    · simp [hm] at h
    · simp [hm] at h
      match k with
      | 0 => simpa using hm
      | k + 1 =>
        have := ih (s + msPerMinute) h k (by omega)
        have heq : s + msPerMinute + k * msPerMinute = s + (k + 1) * msPerMinute := by ring
        rwa [heq] at this

/-- C7: the next-occurrence search is total: it scans minute-by-minute from
`from` rounded up to the next whole minute, returning the first matching
instant, or reporting the impossible-schedule error after at most
`4 × 365 × 24 × 60` candidates; and for the parsed `"0 9 30 2 *"` (Feb 30)
it reports that error for every starting instant. -/
theorem c7_search_total :
    (∀ (fields : CronFields) (t u : Nat), getNextCronOccurrence fields t = some u →
      matchesCronFields u fields = true ∧
      ∃ k, k < MAX_ITERATIONS ∧ u = roundUpMinute t + k * msPerMinute ∧
        ∀ j, j < k → matchesCronFields (roundUpMinute t + j * msPerMinute) fields = false) ∧
    (∀ (fields : CronFields) (t : Nat), getNextCronOccurrence fields t = none →
      ∀ k, k < MAX_ITERATIONS →
        matchesCronFields (roundUpMinute t + k * msPerMinute) fields = false) ∧
    parseCronExpression "0 9 30 2 *" = .ok feb30Fields ∧
    (∀ t : Nat, getNextCronOccurrence feb30Fields t = none) := by
  refine ⟨?_, ?_, by rfl, ?_⟩
  · intro fields t u h
    exact cronSearch_some_charac fields MAX_ITERATIONS (roundUpMinute t) u h
  · intro fields t h
    exact cronSearch_none_all_fail fields MAX_ITERATIONS (roundUpMinute t) h
  · intro t
    exact cronSearch_none_of_never feb30Fields feb30_never_matches MAX_ITERATIONS
      (roundUpMinute t)

theorem c7_witness :
    matchesCronFields 60000
      ⟨rangeList 0 59, rangeList 0 23, rangeList 1 31, rangeList 1 12, rangeList 0 6, false⟩
        = true ∧
    getNextCronOccurrence feb30Fields 0 = none :=
  ⟨(c7_search_total.1
      ⟨rangeList 0 59, rangeList 0 23, rangeList 1 31, rangeList 1 12, rangeList 0 6, false⟩
      0 60000 (by decide)).1,
   c7_search_total.2.2.2 0⟩

/-! ### The day/weekday predicate (C3) -/

/-- "Specified" day-of-month constraint: `L`, or a non-empty value set whose
size is strictly below the field's full cardinality (31). -/
abbrev daySpecified (f : CronFields) : Prop :=
  f.isLastDayOfMonth = true ∨ (f.dayOfMonth ≠ [] ∧ f.dayOfMonth.length < 31)

/-- "Specified" day-of-week constraint: non-empty value set of size strictly
below the full cardinality (7). -/
abbrev weekdaySpecified (f : CronFields) : Prop :=
  f.dayOfWeek ≠ [] ∧ f.dayOfWeek.length < 7

/-- The day-of-month constraint matches (`L` means last day of month; an
empty set is a wildcard). -/
abbrev dayFieldMatches (t : Nat) (f : CronFields) : Prop :=
  if f.isLastDayOfMonth then isLastDayOfMonthDate t = true
  else f.dayOfMonth = [] ∨ f.dayOfMonth.contains (getUTCDate t) = true

/-- The day-of-week constraint matches (an empty set is a wildcard). -/
abbrev weekdayFieldMatches (t : Nat) (f : CronFields) : Prop :=
  f.dayOfWeek = [] ∨ f.dayOfWeek.contains (getUTCDay t) = true

/-- The parsed fields of `"0 9 15 * MON"`. -/
def c3fields : CronFields :=
  ⟨[0], [9], [15], [1, 2, 3, 4, 5, 6, 7, 8, 9, 10, 11, 12], [1], false⟩

abbrev noMatchUpTo (f : CronFields) (s : Nat) (k : Nat) : Prop :=
  ∀ j, j < k → matchesCronFields (s + j * msPerMinute) f = false

theorem noMatchUpTo_append (f : CronFields) (s : Nat) (a b : Nat)
    (h1 : noMatchUpTo f s a) (h2 : noMatchUpTo f (s + a * msPerMinute) b) :
    noMatchUpTo f s (a + b) := by
  intro j hj
  rcases Nat.lt_or_ge j a with h | h
  · exact h1 j h
  · have h3 := h2 (j - a) (by omega)
    have heq : s + a * msPerMinute + (j - a) * msPerMinute = s + j * msPerMinute := by
      rw [Nat.add_assoc, ← Nat.add_mul, Nat.add_sub_cancel' h]
    rwa [heq] at h3

theorem cronSearch_skip (f : CronFields) :
    ∀ (k fuel : Nat) (s : Nat), noMatchUpTo f s k →
      cronSearch f (fuel + k) s = cronSearch f fuel (s + k * msPerMinute) := by
  intro k
  induction k with
  | zero => intro fuel s _; simp
  | succ k ih =>
    intro fuel s h
    have h0 : matchesCronFields s f = false := by simpa using h 0 (by omega)
    have h' : noMatchUpTo f (s + msPerMinute) k := by
      intro j hj
      have hjj := h (j + 1) (by omega)
      have heq : s + (j + 1) * msPerMinute = s + msPerMinute + j * msPerMinute := by ring
      rwa [heq] at hjj
    rw [show fuel + (k + 1) = (fuel + k) + 1 from rfl, cronSearch, h0]
    simp only [Bool.false_eq_true, if_false]
    rw [ih fuel (s + msPerMinute) h']
    congr 1
    ring

set_option maxRecDepth 40000 in
theorem c3fields_next_concrete :
    getNextCronOccurrence c3fields (timeOf 2025 1 10 10 0) = some (timeOf 2025 1 13 9 0) := by
  have h1 : noMatchUpTo c3fields (timeOf 2025 1 10 10 1) 800 := by decide
  have h2 : noMatchUpTo c3fields (timeOf 2025 1 10 23 21) 800 := by decide
  have h3 : noMatchUpTo c3fields (timeOf 2025 1 11 12 41) 800 := by decide
  have h4 : noMatchUpTo c3fields (timeOf 2025 1 12 2 1) 800 := by decide
  have h5 : noMatchUpTo c3fields (timeOf 2025 1 12 15 21) 800 := by decide
  have h6 : noMatchUpTo c3fields (timeOf 2025 1 13 4 41) 259 := by decide
  have e1 : timeOf 2025 1 10 10 1 + 800 * msPerMinute = timeOf 2025 1 10 23 21 := by decide
  have e2 : timeOf 2025 1 10 10 1 + 1600 * msPerMinute = timeOf 2025 1 11 12 41 := by decide
  have e3 : timeOf 2025 1 10 10 1 + 2400 * msPerMinute = timeOf 2025 1 12 2 1 := by decide
  have e4 : timeOf 2025 1 10 10 1 + 3200 * msPerMinute = timeOf 2025 1 12 15 21 := by decide
  have e5 : timeOf 2025 1 10 10 1 + 4000 * msPerMinute = timeOf 2025 1 13 4 41 := by decide
  have e6 : timeOf 2025 1 10 10 1 + 4259 * msPerMinute = timeOf 2025 1 13 9 0 := by decide
  have a1 := noMatchUpTo_append c3fields (timeOf 2025 1 10 10 1) 800 800 h1
    (by rw [e1]; exact h2)
  have a2 := noMatchUpTo_append c3fields (timeOf 2025 1 10 10 1) 1600 800 a1
    (by rw [e2]; exact h3)
  have a3 := noMatchUpTo_append c3fields (timeOf 2025 1 10 10 1) 2400 800 a2
    (by rw [e3]; exact h4)
  have a4 := noMatchUpTo_append c3fields (timeOf 2025 1 10 10 1) 3200 800 a3
    (by rw [e4]; exact h5)
  have a5 := noMatchUpTo_append c3fields (timeOf 2025 1 10 10 1) 4000 259 a4
    (by rw [e5]; exact h6)
  have hall : noMatchUpTo c3fields (timeOf 2025 1 10 10 1) 4259 := a5
  have hru : roundUpMinute (timeOf 2025 1 10 10 0) = timeOf 2025 1 10 10 1 := by decide
  have hmatch : matchesCronFields (timeOf 2025 1 13 9 0) c3fields = true := by decide
  rw [getNextCronOccurrence, hru, show MAX_ITERATIONS = 2098141 + 4259 from rfl,
    cronSearch_skip c3fields 4259 2098141 _ hall, e6,
    show (2098141 : Nat) = 2098140 + 1 from rfl, cronSearch, hmatch]
  simp

/-- C3: a candidate's day component matches under OR exactly when both the
day-of-month and day-of-week constraints are specified (operationally: `L`,
or a non-empty set smaller than the field's cardinality), and under AND
otherwise; and for `"0 9 15 * MON"` from `2025-01-10T10:00:00Z` the next
occurrence is `2025-01-13T09:00:00.000Z`. -/
theorem c3_day_weekday_or_logic :
    (∀ (t : Nat) (f : CronFields),
      matchesCronFields t f = true ↔
        f.minute.contains (getUTCMinutes t) = true ∧
        f.hour.contains (getUTCHours t) = true ∧
        f.month.contains (getUTCMonth1 t) = true ∧
        (if daySpecified f ∧ weekdaySpecified f
         then dayFieldMatches t f ∨ weekdayFieldMatches t f
         else dayFieldMatches t f ∧ weekdayFieldMatches t f)) ∧
    parseCronExpression "0 9 15 * MON" = .ok c3fields ∧
    getNextCronOccurrence c3fields (timeOf 2025 1 10 10 0) = some (timeOf 2025 1 13 9 0) := by
  refine ⟨?_, by rfl, c3fields_next_concrete⟩
  intro t f
  by_cases h1 : getUTCMinutes t ∈ f.minute
  · by_cases h2 : getUTCHours t ∈ f.hour
    · by_cases h3 : getUTCMonth1 t ∈ f.month
      · simp [matchesCronFields, h1, h2, h3, daySpecified, weekdaySpecified,
          dayFieldMatches, weekdayFieldMatches, List.length_pos, List.isEmpty_iff]
      · simp [matchesCronFields, h3]
    · simp [matchesCronFields, h2]
  · simp [matchesCronFields, h1]

theorem c3_witness : parseCronExpression "0 9 15 * MON" = .ok c3fields :=
  c3_day_weekday_or_logic.2.1

/-! ### Substring facts for the executor's timeout classification -/

theorem codesPre_append (l m : List Nat) : codesPre l (l ++ m) = true := by
  induction l with
  | nil => rfl
  | cons c cs ih => simpa [codesPre] using ih

theorem codesHas_append_left (pre : List Nat) {n suf : List Nat}
    (h : codesHas n suf = true) : codesHas n (pre ++ suf) = true := by
  induction pre with
  | nil => simpa using h
  | cons c cs ih => simp [codesHas, ih]

theorem codesHas_self (n m : List Nat) : codesHas n (n ++ m) = true := by
  cases n with
  | nil => cases m <;> simp [codesHas, codesPre]
  | cons c cs =>
    have hp := codesPre_append (c :: cs) m
    simp only [List.cons_append] at hp ⊢
    simp [codesHas, hp]

theorem timeoutMsg_has_timed_out (jobName : List Nat) (tm : Nat) :
    codesHas (codesOf "timed out") (timeoutMsgCodes jobName tm) = true := by
  rw [timeoutMsgCodes]
  have hdecomp : codesOf "\" timed out after " =
      [34, 32] ++ (codesOf "timed out" ++ codesOf " after ") := by decide
  rw [hdecomp]
  simp only [List.append_assoc]
  exact codesHas_append_left _
    (codesHas_append_left _ (codesHas_append_left [34, 32] (codesHas_self _ _)))

/-- C4 (amended): on normal completion the result is `success = true` with
`timedOut = false` and no `onTimeout` call; on any thrown error the result is
`success = false` with the error recorded, and `timedOut = true` exactly when
the error *message contains the substring `"timed out"`* (with `onTimeout`
invoked exactly then, when supplied). The expired timeout's rejection message
always contains that substring, so genuine timeouts are always flagged — but
so is any job error whose message happens to contain it. -/
theorem c4_timeout_classification {α : Type} (jobName : List Nat) (timeout : Option Nat)
    (hasOnTimeout : Bool) (dur : Nat) (out : Except (List Nat) α) :
    ((executeWithTimeout jobName timeout hasOnTimeout dur out).success = true ↔
      ∃ v, effectiveOutcome jobName timeout dur out = .ok v) ∧
    (∀ m, effectiveOutcome jobName timeout dur out = .error m →
      (executeWithTimeout jobName timeout hasOnTimeout dur out).success = false ∧
      (executeWithTimeout jobName timeout hasOnTimeout dur out).errMsg = some m ∧
      (executeWithTimeout jobName timeout hasOnTimeout dur out).timedOut =
        codesHas (codesOf "timed out") m ∧
      (executeWithTimeout jobName timeout hasOnTimeout dur out).onTimeoutCalled =
        (codesHas (codesOf "timed out") m && hasOnTimeout)) ∧
    ((executeWithTimeout jobName timeout hasOnTimeout dur out).success = true →
      (executeWithTimeout jobName timeout hasOnTimeout dur out).timedOut = false ∧
      (executeWithTimeout jobName timeout hasOnTimeout dur out).onTimeoutCalled = false) ∧
    (∀ tm, codesHas (codesOf "timed out") (timeoutMsgCodes jobName tm) = true) := by
  rcases heff : effectiveOutcome jobName timeout dur out with m | v
  · refine ⟨?_, ?_, ?_, fun tm => timeoutMsg_has_timed_out jobName tm⟩
    · simp [executeWithTimeout, heff]
      split <;> simp
    · intro m' hm'
      injection hm' with hmm
      subst hmm
      by_cases hhas : codesHas (codesOf "timed out") m = true
      · simp [executeWithTimeout, heff, hhas]
      · simp only [Bool.not_eq_true] at hhas
        simp [executeWithTimeout, heff, hhas]
    · intro hs
      simp [executeWithTimeout, heff] at hs
      split at hs <;> simp_all
  · refine ⟨?_, ?_, ?_, fun tm => timeoutMsg_has_timed_out jobName tm⟩
    · simp [executeWithTimeout, heff]
    · intro m' hm'
      simp at hm'
    · intro _
      simp [executeWithTimeout, heff]

/-- C4 counterexample: with *no timeout configured at all* (so no timeout
mechanism exists), a job that throws an ordinary error whose message contains
`"timed out"` is reported with `timedOut = true` and triggers `onTimeout` —
contradicting "timedOut = true iff the error is the timeout signal produced
by the expired timeout mechanism". -/
theorem c4_counterexample :
    (executeWithTimeout (codesOf "job1") none true 0
      (.error (codesOf "timed out")) : ExecutionResult Nat).timedOut = true ∧
    (executeWithTimeout (codesOf "job1") none true 0
      (.error (codesOf "timed out")) : ExecutionResult Nat).onTimeoutCalled = true := by
  exact ⟨rfl, rfl⟩

theorem c4_witness :
    (executeWithTimeout (codesOf "jobW") (some 50) true 100
      (.ok (7 : Nat))).timedOut =
        codesHas (codesOf "timed out") (timeoutMsgCodes (codesOf "jobW") 50) :=
  ((c4_timeout_classification (codesOf "jobW") (some 50) true 100 (.ok 7)).2.1
    (timeoutMsgCodes (codesOf "jobW") 50) (by rfl)).2.2.1

/-- C8 (amended): `getJobStatus` computes its counters over *all* fetched
rows: `totalRuns` is the number of rows, `successCount` counts rows without
an `error` field (including rows that started but never finished), and
`errorCount` counts rows with one; only `averageDuration` is restricted to
completed rows, so a started-but-unfinished row shifts `totalRuns` and
`successCount` but leaves `averageDuration` unchanged. -/
theorem c8_stats_over_all_rows (rows : List JobHistoryRow) (r : JobHistoryRow)
    (hr : r.finishedAt = none) :
    (jobStatsOf rows).totalRuns = rows.length ∧
    (jobStatsOf rows).successCount = rows.countP (fun x => x.error.isNone) ∧
    (jobStatsOf rows).errorCount = rows.countP (fun x => x.error.isSome) ∧
    (jobStatsOf (r :: rows)).averageDuration = (jobStatsOf rows).averageDuration ∧
    (jobStatsOf (r :: rows)).totalRuns = rows.length + 1 ∧
    (r.error = none →
      (jobStatsOf (r :: rows)).successCount = (jobStatsOf rows).successCount + 1) := by
  refine ⟨rfl, ?_, ?_, ?_, ?_, ?_⟩
  · simp [jobStatsOf, List.countP_eq_length_filter]
  · simp [jobStatsOf, List.countP_eq_length_filter]
  · simp [jobStatsOf, hr]
  · simp [jobStatsOf]
  · intro he
    simp [jobStatsOf, he]

/-- C8 counterexample: a single row that has started but not finished (no
`finishedAt`, no `error`) yields `totalRuns = 1` and `successCount = 1`,
although the set of completed rows is empty — so the counters are *not*
computed over completed rows, and such a row does contribute to them. -/
theorem c8_counterexample :
    (jobStatsOf [⟨0, none, none⟩]).totalRuns = 1 ∧
    (jobStatsOf [⟨0, none, none⟩]).successCount = 1 ∧
    [(⟨0, none, none⟩ : JobHistoryRow)].filter (fun r => r.finishedAt.isSome) = [] ∧
    jobStatsOf [⟨0, none, none⟩] ≠
      jobStatsOf ([(⟨0, none, none⟩ : JobHistoryRow)].filter (fun r => r.finishedAt.isSome)) := by
  refine ⟨rfl, rfl, rfl, ?_⟩
  decide

theorem c8_witness :
    (jobStatsOf [⟨5, some 15, none⟩]).totalRuns = 1 ∧
    (jobStatsOf (⟨0, none, none⟩ :: [⟨5, some 15, none⟩])).averageDuration =
      (jobStatsOf [⟨5, some 15, none⟩]).averageDuration := by
  have h := c8_stats_over_all_rows [⟨5, some 15, none⟩] ⟨0, none, none⟩ rfl
  exact ⟨h.1, h.2.2.2.1⟩

/-- C9 counterexample: on an idle instance, `add` with an unparseable cron
expression succeeds and registers the job — the parse error is *not*
reported to the caller at job-add time. -/
theorem c9_counterexample :
    (parseCronExpression "61 * * * *").isOk = false ∧
    (addJob false [] 0 "job" (.cron "61 * * * *")).1 = .ok ∧
    ((addJob false [] 0 "job" (.cron "61 * * * *")).2.1).lookup "job" =
      some (.cron "61 * * * *") := by
  refine ⟨by decide, rfl, by decide⟩

/-- C9 (amended): `add` never validates the schedule itself. With an
unparseable cron expression, on an idle instance `add` succeeds and registers
the entry (the error is deferred to the scheduling path); on a running
instance `add` registers the entry, installs a self-retrying timer, and only
then throws the parse error out of the logging call in `scheduleEntry` — so
the error surfaces, but the job is registered either way. -/
theorem c9_add_defers_parse_errors (entries : List (String × Schedule)) (now : Nat)
    (name : String) (ex : String) (msg : String)
    (hfresh : entries.lookup name = none)
    (hbad : parseCronExpression ex = .error msg) :
    addJob false entries now name (.cron ex) = (.ok, entries ++ [(name, .cron ex)], false) ∧
    addJob true entries now name (.cron ex) =
      (.threw msg, entries ++ [(name, .cron ex)], true) := by
  constructor
  · simp [addJob, hfresh]
  · simp [addJob, hfresh, getNextScheduledTime, hbad]

theorem c9_witness :
    addJob false [] 0 "jobw" (.cron "61 * * * *") =
      (.ok, [("jobw", .cron "61 * * * *")], false) ∧
    addJob true [] 0 "jobw" (.cron "61 * * * *") =
      (.threw "value out of range", [("jobw", .cron "61 * * * *")], true) :=
  c9_add_defers_parse_errors [] 0 "jobw" "61 * * * *" "value out of range" rfl (by rfl)

/-! ### Ceiling arithmetic for the aligned interval boundaries -/

theorem le_jsCeil_mul (a b : Nat) (hb : 1 ≤ b) : a ≤ jsCeil a b * b := by
  rw [jsCeil, Nat.mul_comm]
  have hdm := Nat.div_add_mod (a + b - 1) b
  have hr : (a + b - 1) % b < b := Nat.mod_lt _ (by omega)
  omega

theorem jsCeil_mul_mod (a b : Nat) : jsCeil a b * b % b = 0 := Nat.mul_mod_left _ _

theorem jsCeil_mul_le_of_dvd (a x b : Nat) (hb : 1 ≤ b) (hax : a ≤ x) (hdvd : b ∣ x) :
    jsCeil a b * b ≤ x := by
  obtain ⟨c, rfl⟩ := hdvd
  have h1 : jsCeil a b ≤ c := by
    rw [jsCeil]
    have h2 : a + b - 1 ≤ b * c + (b - 1) := by omega
    have h3 : (a + b - 1) / b ≤ (b * c + (b - 1)) / b := Nat.div_le_div_right h2
    rwa [Nat.mul_add_div (by omega : 0 < b), Nat.div_eq_of_lt (by omega : b - 1 < b),
      Nat.add_zero] at h3
  calc jsCeil a b * b ≤ c * b := Nat.mul_le_mul_right _ h1
  _ = b * c := Nat.mul_comm _ _

theorem jsCeil_least (a b x : Nat) (hb : 1 ≤ b) (hx : x % b = 0) (hax : a ≤ x) :
    jsCeil a b * b ≤ x :=
  jsCeil_mul_le_of_dvd a x b hb hax (Nat.dvd_of_mod_eq_zero hx)

/-! ### Monotonicity of the interval scheduler (aligned seconds excepted) -/

theorem aligned_seconds_eq (every : Nat) (t : Nat) (h : 1 ≤ every) :
    getAlignedInterval every .seconds t = t - t % msPerMinute + every * msPerSecond := by
  simp only [getAlignedInterval, jsSetUTCSeconds, msPerMinute, msPerSecond]
  have h1 : jsCeil ((t - t % 60000) / 1000 % 60 + 1) every * every = every := by
    have hc : (t - t % 60000) / 1000 % 60 = 0 := by omega
    rw [hc, jsCeil, show 1 + every - 1 = every from by omega,
      Nat.div_self (by omega : 0 < every), Nat.one_mul]
  rw [h1]
  omega

theorem aligned_minutes_gt (every : Nat) (t : Nat) (h : 1 ≤ every) :
    t < getAlignedInterval every .minutes t := by
  simp only [getAlignedInterval, jsSetUTCMinutes, msPerMinute, msPerHour]
  have hA := le_jsCeil_mul ((t - t % 60000) / 60000 % 60 + 1) every h
  split <;> omega

theorem aligned_hours_gt (every : Nat) (t : Nat) (h : 1 ≤ every) :
    t < getAlignedInterval every .hours t := by
  simp only [getAlignedInterval, jsSetUTCMinutes, jsSetUTCHoursOnly, msPerMinute,
    msPerHour, msPerDay, Nat.zero_mul, Nat.add_zero]
  have hA := le_jsCeil_mul
    ((t - t % 60000 - (t - t % 60000) / 60000 % 60 * 60000) / 3600000 % 24 + 1) every h
  split <;> omega

theorem aligned_days_gt (every : Nat) (t : Nat) (h : 1 ≤ every) :
    t < getAlignedInterval every .days t := by
  simp only [getAlignedInterval, msPerDay]
  have : 86400000 ≤ every * 86400000 := by omega
  omega

theorem getIntervalMs_ge (every : Nat) (u : TimeUnit) (h : 1 ≤ every) :
    1000 ≤ getIntervalMs every u := by
  cases u <;> simp only [getIntervalMs] <;> omega

theorem daily_gt (at' : List Nat) (t u : Nat) (h : getNextDailyTime at' t = .ok u) :
    t < u := by
  rw [getNextDailyTime] at h
  cases hp : parseAtTime at' with
  | error e => rw [hp] at h; exact Except.noConfusion h
  | ok hm =>
    rw [hp] at h
    obtain ⟨hour, minute⟩ := hm
    simp only [msPerDay, msPerHour, msPerMinute] at h
    split at h <;> simp only [Except.ok.injEq] at h <;> omega

/-- Whether the schedule is an aligned-seconds interval (the one variant
whose computed next instant can lie in the past). -/
def isAlignedSeconds : Schedule → Bool
  | .interval _ .seconds true => true
  | _ => false

/-- The claims' acceptance condition on `every`: a positive integer. -/
def everyPos : Schedule → Prop
  | .interval e _ _ => 1 ≤ e
  | _ => True

/-- C5 (amended): for every accepted schedule *except aligned-seconds
intervals* the computed next instant is strictly after `t`; a drift interval
adds exactly `every` times the unit length in milliseconds; and an
aligned-seconds interval returns the start of the current minute plus
`every` seconds — which is not after `t` whenever `t` lies `every` seconds
or more into its minute. -/
theorem c5_next_strictly_greater (s : Schedule) (t u : Nat) (hpos : everyPos s)
    (hok : getNextScheduledTime s t = .ok u) :
    (isAlignedSeconds s = false → t < u) ∧
    (∀ e un, s = .interval e un false → u = t + getIntervalMs e un) ∧
    (∀ e, s = .interval e .seconds true → u = t - t % msPerMinute + e * msPerSecond) := by
  cases s with
  | interval e un al =>
    have he : 1 ≤ e := hpos
    rw [getNextScheduledTime] at hok
    injection hok with hu
    subst hu
    refine ⟨?_, ?_, ?_⟩
    · intro hns
      cases al with
      | false =>
        simp only [if_false, Bool.false_eq_true, getDriftInterval]
        have := getIntervalMs_ge e un he
        omega
      | true =>
        simp only [if_true]
        cases un with
        | seconds => simp [isAlignedSeconds] at hns
        | minutes => exact aligned_minutes_gt e t he
        | hours => exact aligned_hours_gt e t he
        | days => exact aligned_days_gt e t he
    · intro e' un' hseq
      injection hseq with h1 h2 h3
      subst h1; subst h2; subst h3
      rfl
    · intro e' hseq
      injection hseq with h1 h2 h3
      subst h1; subst h2; subst h3
      simp only [if_true]
      exact aligned_seconds_eq e t he
  | cron ex =>
    refine ⟨?_, ?_, ?_⟩
    · intro _
      rw [getNextScheduledTime] at hok
      cases hp : parseCronExpression ex with
      | error msg => rw [hp] at hok; exact Except.noConfusion hok
      | ok fields =>
        rw [hp] at hok
        have hok2 : (match getNextCronOccurrence fields t with
            | some w => (Except.ok w : Except String Nat)
            | none => Except.error "impossible schedule") = Except.ok u := hok
        cases ho : getNextCronOccurrence fields t with
        | none => rw [ho] at hok2; exact Except.noConfusion hok2
        | some w =>
          rw [ho] at hok2
          injection hok2 with hweq
          subst hweq
          obtain ⟨-, k, -, hw, -⟩ :=
            cronSearch_some_charac fields MAX_ITERATIONS (roundUpMinute t) w ho
          rw [hw, roundUpMinute]
          simp only [msPerMinute]
          omega
    · intro e un hseq
      exact Schedule.noConfusion hseq
    · intro e hseq
      exact Schedule.noConfusion hseq
  | daily a =>
    refine ⟨?_, ?_, ?_⟩
    · intro _
      rw [getNextScheduledTime] at hok
      exact daily_gt (codesOf a) t u hok
    · intro e un hseq
      exact Schedule.noConfusion hseq
    · intro e hseq
      exact Schedule.noConfusion hseq

/-- C5 counterexample: the aligned-seconds branch zeroes seconds *before*
reading them, so from `10:20:45` with `every = 15` it returns `10:20:15` —
an instant strictly *before* the starting time, refuting strict
monotonicity as stated. -/
theorem c5_counterexample :
    getNextScheduledTime (.interval 15 .seconds true) (timeOf 2025 1 15 10 20 + 45000) =
      .ok (timeOf 2025 1 15 10 20 + 15000) ∧
    timeOf 2025 1 15 10 20 + 15000 < timeOf 2025 1 15 10 20 + 45000 :=
  ⟨rfl, by omega⟩

theorem c5_witness :
    (0 : Nat) < 300000 ∧ (300000 : Nat) = 0 + getIntervalMs 5 .minutes := by
  have h := c5_next_strictly_greater (.interval 5 .minutes false) 0 300000
    (show (1 : Nat) ≤ 5 by norm_num) rfl
  exact ⟨h.1 rfl, h.2.1 5 .minutes rfl⟩

/-- C6 (amended): for an aligned-minutes schedule whose `every` *divides 60*,
the next instant has seconds and milliseconds zero and its minute-of-hour is
a multiple of `every` in `[0, 60)`, obtained as the least multiple of `every`
strictly greater than the current minute, taken mod 60 on carry into the
hour. (For `every` not dividing 60 the mod-60 carry can land off the
boundary grid, so the multiple-of-`every` part of the claim fails.) -/
theorem c6_aligned_minutes_boundary (every : Nat) (t : Nat) (h1 : 1 ≤ every)
    (hdvd : every ∣ 60) :
    getAlignedInterval every .minutes t % msPerMinute = 0 ∧
    getUTCMinutes (getAlignedInterval every .minutes t) =
      jsCeil (getUTCMinutes t + 1) every * every % 60 ∧
    jsCeil (getUTCMinutes t + 1) every * every % every = 0 ∧
    getUTCMinutes t < jsCeil (getUTCMinutes t + 1) every * every ∧
    (∀ b, b % every = 0 → getUTCMinutes t < b →
      jsCeil (getUTCMinutes t + 1) every * every ≤ b) ∧
    getUTCMinutes (getAlignedInterval every .minutes t) % every = 0 := by
  have h60 : (60 : Nat) % every = 0 := Nat.mod_eq_zero_of_dvd hdvd
  have hc59 : getUTCMinutes t ≤ 59 := by
    simp only [getUTCMinutes, msPerMinute]
    omega
  have hlt := le_jsCeil_mul (getUTCMinutes t + 1) every h1
  have hle : jsCeil (getUTCMinutes t + 1) every * every ≤ 60 :=
    jsCeil_least _ _ _ h1 h60 (by omega)
  have hmod := jsCeil_mul_mod (getUTCMinutes t + 1) every
  have hmin : getUTCMinutes (getAlignedInterval every .minutes t) =
      jsCeil (getUTCMinutes t + 1) every * every % 60 := by
    simp only [getUTCMinutes, msPerMinute] at hlt hle ⊢
    simp only [getAlignedInterval, jsSetUTCMinutes, msPerMinute, msPerHour]
    rw [show (t - t % 60000) / 60000 % 60 = t / 60000 % 60 from by omega]
    split <;> omega
  have hzero : getAlignedInterval every .minutes t % msPerMinute = 0 := by
    simp only [getUTCMinutes, msPerMinute] at hlt hle
    simp only [getAlignedInterval, jsSetUTCMinutes, msPerMinute, msPerHour]
    rw [show (t - t % 60000) / 60000 % 60 = t / 60000 % 60 from by omega]
    split <;> omega
  refine ⟨hzero, hmin, hmod, by omega, ?_, ?_⟩
  · intro b hb hcb
    exact jsCeil_least _ _ _ h1 hb (by omega)
  · rw [hmin]
    by_cases hA : jsCeil (getUTCMinutes t + 1) every * every < 60
    · rw [Nat.mod_eq_of_lt hA]
      exact hmod
    · rw [show jsCeil (getUTCMinutes t + 1) every * every % 60 = 0 from by omega]
      exact Nat.zero_mod every

/-- C6 counterexample: for `every = 7` (which does not divide 60), from
minute 57 the carry produces minute 3 of the next hour — not a multiple of
7, refuting "minute-of-hour is a multiple of N" as stated for all N. -/
theorem c6_counterexample :
    getUTCMinutes (getAlignedInterval 7 .minutes (timeOf 2025 1 1 0 57)) = 3 ∧
    (3 : Nat) % 7 ≠ 0 := by decide

theorem c6_witness :
    getUTCMinutes (getAlignedInterval 15 .minutes (timeOf 2025 1 15 10 7)) % 15 = 0 ∧
    getAlignedInterval 15 .minutes (timeOf 2025 1 15 10 7) % msPerMinute = 0 := by
  have h := c6_aligned_minutes_boundary 15 (timeOf 2025 1 15 10 7) (by norm_num)
    (by norm_num)
  exact ⟨h.2.2.2.2.2, h.1⟩

end SyncedCron
